import Mathlib

/-!
Shallow embedding of the combat engine of `game.py` (a small pygame RPG).

Modelling notes, keyed to the source:

* `Character` carries the combat-relevant fields `max_hp`, `hp`, `attack`,
  `defense` (Python ints, embedded as `Int`).  The display-only fields
  (`name`, `pos`, `width`, `height`, `flash_timer`) do not influence combat
  and are omitted; in particular `take_damage`'s `flash_timer = 10` write is
  a render effect and is not part of the combatant state modelled here.
* Python floats: `int(self.attack * 2.5)` — `2.5` is a dyadic rational, so
  the product is exact for every magnitude occurring here and `int`
  truncates toward zero: embedded as `Int.tdiv (attack * 5) 2`.
  `int(self.max_hp * 0.3)` — `0.3` rounds to a double a hair below `3/10`;
  for `0 ≤ m` of the magnitudes reachable in this game (well below `2^50`)
  the deficit `m·0.2/2^54` is far smaller than the distance from `3m/10`
  to the next integer below it (and below a half-ulp when `3m/10` is an
  integer), so `int(m * 0.3) = ⌊3m/10⌋`, embedded as `Int.tdiv (m * 3) 10`.
* `random.random()` draws are injected as explicit rationals, compared
  against the literal thresholds `7/10` and `3/10` of the source.
* The `effects` list of `FloatingText`s is modelled as the sequence of
  strings appended to it (the outcome log); the per-frame timer decay and
  removal of expired texts is pure rendering and not modelled.
* `run_battle`'s frame loop is driven by a finite script of inputs: a
  frame may carry no click (`skip`), a window-close event (`quit`), or a
  click on one of the three buttons together with the random draw the
  resulting action would consume.  The loop condition is re-checked at
  every frame exactly as in the source `while`; an exhausted script while
  the battle is still running is reported as `none` (the real loop would
  keep waiting for input).
-/

/-- Combat-relevant state of `Character` in `game.py`. -/
structure Character where
  max_hp : Int
  hp : Int
  attack : Int
  defense : Int
deriving DecidableEq, Repr

/-- `Character.is_alive`: `return self.hp > 0`. -/
def Character.is_alive (c : Character) : Bool :=
  decide (0 < c.hp)

/-- `Character.take_damage`: `self.hp = max(0, self.hp - amount)`. -/
def Character.take_damage (c : Character) (amount : Int) : Character :=
  { c with hp := max 0 (c.hp - amount) }

/-- `Character.heal`: `self.hp = min(self.max_hp, self.hp + amount)`. -/
def Character.heal (c : Character) (amount : Int) : Character :=
  { c with hp := min c.max_hp (c.hp + amount) }

/-- `Enemy(Character)` adds no combat state. -/
abbrev Enemy := Character

/-- The three hero classes `Warrior`, `Mage`, `Rogue` of `game.py`. -/
inductive HeroClass where
  | warrior
  | mage
  | rogue
deriving DecidableEq, Repr

/-- `Hero(Character)` with its `gold` field and its Python class tag
(the source dispatches on `isinstance(self, Mage)` / `isinstance(self, Rogue)`). -/
structure Hero extends Character where
  cls : HeroClass
  gold : Int
deriving DecidableEq, Repr

/-- Text of a damage floating text: `f"-{damage}"`. -/
def hit_text (damage : Int) : String :=
  s!"-{damage}"

/-- Text of a critical-strike floating text: `f"-{damage} (крит)"`. -/
def crit_text (damage : Int) : String :=
  s!"-{damage} (крит)"

/-- Text of a heal floating text: `f"+{amount}"`. -/
def heal_text (amount : Int) : String :=
  s!"+{amount}"

/-- Floating text shown on a strong-attack miss. -/
def miss_text : String := "промах"

/-- Floating text shown when a target dies. -/
def defeated_text : String := "повержен"

/-- `Hero.normal_attack` of `game.py`: damage `max(1, attack - defense)`;
a Rogue doubles it on a draw below `0.3`.  The draw `r` stands for the
`random.random()` call of the source. -/
def Hero.normal_attack (h : Hero) (target : Character) (r : ℚ) : Character × String :=
  let damage := max 1 (h.attack - target.defense)
  if h.cls = HeroClass.rogue ∧ r < 3/10 then
    (target.take_damage (damage * 2), crit_text (damage * 2))
  else
    (target.take_damage damage, hit_text damage)

/-- `Hero.strong_attack` of `game.py`: hit on a draw below `0.7`; base
damage `int(attack * 2.5)` for a Mage and `attack * 2` otherwise. -/
def Hero.strong_attack (h : Hero) (target : Character) (r : ℚ) : Character × String :=
  if r < 7/10 then
    let base := if h.cls = HeroClass.mage then Int.tdiv (h.attack * 5) 2 else h.attack * 2
    let damage := max 1 (base - target.defense)
    (target.take_damage damage, hit_text damage)
  else
    (target, miss_text)

/-- `Hero.heal_action` of `game.py`: heal self by `int(max_hp * 0.3)`. -/
def Hero.heal_action (h : Hero) : Hero × String :=
  let amount := Int.tdiv (h.max_hp * 3) 10
  ({ h with toCharacter := h.toCharacter.heal amount }, heal_text amount)

/-- `Enemy.attack_action` of `game.py`: damage `max(1, attack - defense)`,
no randomness. -/
def Enemy.attack_action (e : Enemy) (target : Character) : Character × String :=
  let damage := max 1 (e.attack - target.defense)
  (target.take_damage damage, hit_text damage)

/-- One clamped hp mutation, as in §4.1 of the spec: a `take_damage` or
`heal` call on a `Character`. -/
inductive HpOp where
  | takeDamage (amount : Int)
  | heal (amount : Int)
deriving DecidableEq, Repr

/-- The amount an `HpOp` carries. -/
def HpOp.amount : HpOp → Int
  | .takeDamage n => n
  | .heal n => n

/-- Apply one `HpOp` to a `Character`. -/
def applyOp (c : Character) : HpOp → Character
  | .takeDamage n => c.take_damage n
  | .heal n => c.heal n

/-- Apply a finite call sequence of `take_damage`/`heal` to a `Character`. -/
def applyOps (c : Character) (ops : List HpOp) : Character :=
  ops.foldl applyOp c

/-- The three battle buttons of `run_battle`. -/
inductive HeroAction where
  | attack
  | strong
  | heal
deriving DecidableEq, Repr

/-- One frame's worth of input to `run_battle`: window close, no click, or
a click on an action button bundled with the random draw that action would
consume (hero actions draw at most once per frame). -/
inductive BattleInput where
  | quit
  | skip
  | click (a : HeroAction) (r : ℚ)

/-- The hero-action block of `run_battle`: select
`next(e for e in enemies if e.is_alive())` as target, dispatch the chosen
action, and append `"повержен"` if the target ended up dead.  The source's
`next` cannot fail there because the loop guarantees a living enemy; on an
all-dead list this function is the identity. -/
def heroTurn (h : Hero) (a : HeroAction) (r : ℚ) : List Enemy → Hero × List Enemy × List String
  | [] => (h, [], [])
  | e :: es =>
    if e.is_alive then
      let step : Hero × Character × String :=
        match a with
        | HeroAction.attack => (h, h.normal_attack e r)
        | HeroAction.strong => (h, h.strong_attack e r)
        | HeroAction.heal => (h.heal_action.1, e, h.heal_action.2)
      (step.1, step.2.1 :: es,
        step.2.2 :: if step.2.1.is_alive then [] else [defeated_text])
    else
      ((heroTurn h a r es).1, e :: (heroTurn h a r es).2.1, (heroTurn h a r es).2.2)

/-- The hero after an enemy's `attack_action(hero, effects)`. -/
def enemyStrike (e : Enemy) (h : Hero) : Hero :=
  { h with toCharacter := (e.attack_action h.toCharacter).1 }

/-- Fold a list of enemy strikes over the hero (used to state properties of
the retaliation pass). -/
def strikeFold (h : Hero) (l : List Enemy) : Hero :=
  l.foldl (fun hh e => enemyStrike e hh) h

/-- The enemy-retaliation pass of `run_battle`:
`for enemy in enemies: if enemy.is_alive(): enemy.attack_action(hero); if not hero.is_alive(): break`.
Returns the hero afterwards and the appended floating-text entries. -/
def enemyTurns (h : Hero) : List Enemy → Hero × List String
  | [] => (h, [])
  | e :: es =>
    if e.is_alive then
      if (enemyStrike e h).is_alive then
        ((enemyTurns (enemyStrike e h) es).1,
          (e.attack_action h.toCharacter).2 :: (enemyTurns (enemyStrike e h) es).2)
      else
        (enemyStrike e h, [(e.attack_action h.toCharacter).2])
    else
      enemyTurns h es

/-- The `run_battle` loop of `game.py`, driven by a finite input script.
Per frame: re-check `while hero.is_alive() and any(e.is_alive() ...)`;
on `quit` return `False` at once; on a click resolve the hero action and
then the enemy-retaliation pass.  Result: final hero, final enemies, the
full sequence of appended floating-text entries, and `some b` for the
returned boolean (`none` if the script ran out mid-battle). -/
def run_battle : Hero → List Enemy → List String → List BattleInput →
    Hero × List Enemy × List String × Option Bool
  | h, es, log, [] =>
    if h.is_alive && es.any Character.is_alive then (h, es, log, none)
    else (h, es, log, some h.is_alive)
  | h, es, log, i :: rest =>
    if h.is_alive && es.any Character.is_alive then
      match i with
      | BattleInput.quit => (h, es, log, some false)
      | BattleInput.skip => run_battle h es log rest
      | BattleInput.click a r =>
        let t := heroTurn h a r es
        let u := enemyTurns t.1 t.2.1
        run_battle u.1 t.2.1 (log ++ t.2.2 ++ u.2) rest
    else (h, es, log, some h.is_alive)

/-!
Concrete combatants used by witnesses: the starting stats of the source's
`Warrior`, `Mage`, `Rogue` constructors and of the first-battle wave, plus
a dead enemy and a one-shot-killing brute for the retaliation checks.
-/

/-- The source's `Warrior`: hp 120, attack 25, defense 8, gold 20. -/
def warriorHero : Hero := ⟨⟨120, 120, 25, 8⟩, HeroClass.warrior, 20⟩

/-- The source's `Mage`: hp 80, attack 18, defense 3, gold 20. -/
def mageHero : Hero := ⟨⟨80, 80, 18, 3⟩, HeroClass.mage, 20⟩

/-- The source's `Rogue`: hp 90, attack 20, defense 4, gold 20. -/
def rogueHero : Hero := ⟨⟨90, 90, 20, 4⟩, HeroClass.rogue, 20⟩

/-- The spec's end-to-end hero: hp 100, attack 20, defense 5. -/
def plainHero : Hero := ⟨⟨100, 100, 20, 5⟩, HeroClass.warrior, 20⟩

/-- The source's weak goblin wave member: hp 30, attack 10, defense 2. -/
def goblin : Enemy := ⟨30, 30, 10, 2⟩

/-- A goblin variant that dies to one normal attack of `plainHero`. -/
def weakGoblin : Enemy := ⟨10, 10, 10, 2⟩

/-- An already-dead enemy. -/
def deadEnemy : Enemy := ⟨5, 0, 9, 1⟩

/-- An enemy whose single attack kills any of the starting heroes. -/
def brute : Enemy := ⟨40, 40, 200, 3⟩

/-- The source's orc wave member: hp 50, attack 15, defense 3. -/
def orc : Enemy := ⟨50, 50, 15, 3⟩

/-!
Helper lemmas.
-/

/-- `applyOp` never touches `max_hp`. -/
theorem applyOp_max_hp (c : Character) (op : HpOp) : (applyOp c op).max_hp = c.max_hp := by
  cases op <;> simp [applyOp, Character.take_damage, Character.heal]

/-- Truncating division by 10 of a nonnegative multiple of 3 is the rational
floor of multiplication by `3/10` (how the source's `int(max_hp * 0.3)`
relates to the spec's `floor(maxHp * 0.3)`). -/
theorem tdiv_ten_as_floor (m : Int) (hm : 0 ≤ m) :
    Int.tdiv (m * 3) 10 = ⌊(m : ℚ) * (3 / 10)⌋ := by
  have h1 : Int.tdiv (m * 3) 10 = (m * 3) / 10 :=
    Int.tdiv_eq_ediv (by positivity) (by norm_num)
  have h2 : ⌊((m * 3 : ℤ) : ℚ) / ((10 : ℕ) : ℚ)⌋ = (m * 3) / ((10 : ℕ) : ℤ) :=
    Rat.floor_intCast_div_natCast (m * 3) 10
  rw [h1, show (m : ℚ) * (3 / 10) = ((m * 3 : ℤ) : ℚ) / ((10 : ℕ) : ℚ) by push_cast; ring, h2]
  norm_num

/-- Truncating division by 2 of a nonnegative multiple of 5 is the rational
floor of multiplication by `5/2` (how the source's `int(attack * 2.5)`
relates to the spec's truncation, `2.5` being exact in binary). -/
theorem tdiv_two_as_floor (a : Int) (ha : 0 ≤ a) :
    Int.tdiv (a * 5) 2 = ⌊(a : ℚ) * (5 / 2)⌋ := by
  have h1 : Int.tdiv (a * 5) 2 = (a * 5) / 2 :=
    Int.tdiv_eq_ediv (by positivity) (by norm_num)
  have h2 : ⌊((a * 5 : ℤ) : ℚ) / ((2 : ℕ) : ℚ)⌋ = (a * 5) / ((2 : ℕ) : ℤ) :=
    Rat.floor_intCast_div_natCast (a * 5) 2
  rw [h1, show (a : ℚ) * (5 / 2) = ((a * 5 : ℤ) : ℚ) / ((2 : ℕ) : ℚ) by push_cast; ring, h2]
  norm_num

/-- C1: starting from `0 ≤ hp ≤ maxHp` with `maxHp > 0`, any finite
sequence of `take_damage`/`heal` calls with nonnegative amounts keeps
`0 ≤ hp ≤ maxHp` (and never changes `maxHp`). -/
theorem hp_invariant_preserved (c : Character) (ops : List HpOp)
    (hmax : 0 < c.max_hp) (h0 : 0 ≤ c.hp) (h1 : c.hp ≤ c.max_hp)
    (hamt : ∀ op ∈ ops, 0 ≤ op.amount) :
    0 ≤ (applyOps c ops).hp ∧ (applyOps c ops).hp ≤ (applyOps c ops).max_hp ∧
      (applyOps c ops).max_hp = c.max_hp := by
  induction ops generalizing c with
  | nil => exact ⟨h0, by simpa [applyOps] using h1, rfl⟩
  | cons op ops ih =>
    have hop : 0 ≤ op.amount := hamt op (by simp)
    have hstep : 0 < (applyOp c op).max_hp ∧ 0 ≤ (applyOp c op).hp ∧
        (applyOp c op).hp ≤ (applyOp c op).max_hp := by
      cases op <;>
        simp only [applyOp, Character.take_damage, Character.heal, HpOp.amount] at hop ⊢ <;>
        omega
    obtain ⟨a, b, d⟩ := hstep
    have hrest := ih (applyOp c op) a b d (fun o ho => hamt o (by simp [ho]))
    have heq : applyOps c (op :: ops) = applyOps (applyOp c op) ops := rfl
    rw [heq]
    exact ⟨hrest.1, hrest.2.1, hrest.2.2.trans (applyOp_max_hp c op)⟩

/-- Witness for `hp_invariant_preserved` at a concrete call sequence. -/
theorem hp_invariant_preserved_witness :
    0 ≤ (applyOps ⟨10, 5, 0, 0⟩ [HpOp.takeDamage 3, HpOp.heal 20, HpOp.takeDamage 100, HpOp.heal 0]).hp ∧
      (applyOps ⟨10, 5, 0, 0⟩ [HpOp.takeDamage 3, HpOp.heal 20, HpOp.takeDamage 100, HpOp.heal 0]).hp ≤
        (applyOps ⟨10, 5, 0, 0⟩ [HpOp.takeDamage 3, HpOp.heal 20, HpOp.takeDamage 100, HpOp.heal 0]).max_hp ∧
      (applyOps ⟨10, 5, 0, 0⟩ [HpOp.takeDamage 3, HpOp.heal 20, HpOp.takeDamage 100, HpOp.heal 0]).max_hp =
        (⟨10, 5, 0, 0⟩ : Character).max_hp :=
  hp_invariant_preserved ⟨10, 5, 0, 0⟩ _ (by decide) (by decide) (by decide) (by decide)

/-- C9 counterexample: with a negative amount the source does NOT keep hp
inside `[0, maxHp]` — `take_damage(-5)` on a full-hp combatant overshoots
`max_hp`, and `heal(-5)` on a low-hp combatant drives hp below `0`. -/
theorem negative_amount_escapes_range :
    (((⟨10, 10, 0, 0⟩ : Character).take_damage (-5)).hp = 15 ∧
      ¬((⟨10, 10, 0, 0⟩ : Character).take_damage (-5)).hp ≤ (⟨10, 10, 0, 0⟩ : Character).max_hp) ∧
    ((((⟨10, 2, 0, 0⟩ : Character).heal (-5)).hp = -3) ∧
      ¬(0 ≤ ((⟨10, 2, 0, 0⟩ : Character).heal (-5)).hp)) := by
  decide

/-- C9 amended: `take_damage(0)` and `heal(0)` are no-ops and no amount
signals an error, but a negative amount is not clamped into `[0, maxHp]`:
`take_damage n` with `n ≤ 0` yields exactly `hp - n` (possibly above
`max_hp`, never below 0) and `heal n` with `n ≤ 0` yields exactly `hp + n`
(possibly below 0, never above `max_hp`). -/
theorem zero_noop_negative_unclamped (c : Character) (n : Int)
    (h0 : 0 ≤ c.hp) (h1 : c.hp ≤ c.max_hp) :
    (c.take_damage 0 = c ∧ c.heal 0 = c) ∧
    (n ≤ 0 →
      (c.take_damage n).hp = c.hp - n ∧ 0 ≤ (c.take_damage n).hp ∧
      (c.heal n).hp = c.hp + n ∧ (c.heal n).hp ≤ c.max_hp) := by
  refine ⟨⟨?_, ?_⟩, fun hn => ⟨?_, ?_, ?_, ?_⟩⟩
  · have hmax : (0 : Int) ⊔ c.hp = c.hp := sup_eq_right.mpr h0
    simp [Character.take_damage, hmax]
  · have hmin : c.max_hp ⊓ c.hp = c.hp := inf_eq_right.mpr h1
    simp [Character.heal, hmin]
  · exact max_eq_right (by linarith)
  · exact le_max_left 0 _
  · exact min_eq_right (by linarith)
  · exact min_le_left _ _

/-- Witness for `zero_noop_negative_unclamped` at a concrete combatant. -/
theorem zero_noop_negative_unclamped_witness :
    (((⟨10, 4, 1, 1⟩ : Character).take_damage 0 = ⟨10, 4, 1, 1⟩ ∧
        (⟨10, 4, 1, 1⟩ : Character).heal 0 = ⟨10, 4, 1, 1⟩)) ∧
    ((-7 : Int) ≤ 0 →
      (((⟨10, 4, 1, 1⟩ : Character).take_damage (-7)).hp = (⟨10, 4, 1, 1⟩ : Character).hp - (-7) ∧
        0 ≤ ((⟨10, 4, 1, 1⟩ : Character).take_damage (-7)).hp ∧
        ((⟨10, 4, 1, 1⟩ : Character).heal (-7)).hp = (⟨10, 4, 1, 1⟩ : Character).hp + (-7) ∧
        ((⟨10, 4, 1, 1⟩ : Character).heal (-7)).hp ≤ (⟨10, 4, 1, 1⟩ : Character).max_hp)) :=
  zero_noop_negative_unclamped ⟨10, 4, 1, 1⟩ (-7) (by decide) (by decide)

/-- C5: the heal action restores `amount = ⌊maxHp * 3/10⌋` (clamped at
`maxHp`), reports that amount, keeps `maxHp`, and for `maxHp = 80` the
amount is exactly `24`.  `Hero.heal_action` takes no random draw at all. -/
theorem heal_action_amount (h : Hero) (hm : 0 ≤ h.max_hp) :
    h.heal_action.1.hp = min h.max_hp (h.hp + ⌊(h.max_hp : ℚ) * (3 / 10)⌋) ∧
    h.heal_action.1.max_hp = h.max_hp ∧
    h.heal_action.2 = heal_text ⌊(h.max_hp : ℚ) * (3 / 10)⌋ ∧
    (h.max_hp = 80 → h.heal_action.1.hp = min 80 (h.hp + 24)) := by
  have key : Int.tdiv (h.max_hp * 3) 10 = ⌊(h.max_hp : ℚ) * (3 / 10)⌋ :=
    tdiv_ten_as_floor h.max_hp hm
  refine ⟨?_, ?_, ?_, fun h80 => ?_⟩
  · simp [Hero.heal_action, Character.heal, key]
  · simp [Hero.heal_action, Character.heal]
  · simp [Hero.heal_action, key]
  · have h24 : Int.tdiv (240 : Int) 10 = 24 := by decide
    simp [Hero.heal_action, Character.heal, h80, h24]

/-- Witness for `heal_action_amount` at the source's `Mage` (maxHp 80). -/
theorem heal_action_amount_witness :
    mageHero.heal_action.1.hp = min mageHero.max_hp (mageHero.hp + ⌊(mageHero.max_hp : ℚ) * (3 / 10)⌋) ∧
    mageHero.heal_action.1.max_hp = mageHero.max_hp ∧
    mageHero.heal_action.2 = heal_text ⌊(mageHero.max_hp : ℚ) * (3 / 10)⌋ ∧
    (mageHero.max_hp = 80 → mageHero.heal_action.1.hp = min 80 (mageHero.hp + 24)) :=
  heal_action_amount mageHero (by decide)

/-- C2: a strong attack hits exactly on a draw below `7/10`; on a hit the
damage is `max(1, base - defense)` with base `int(attack * 2.5)` for a Mage
(equal to `⌊attack * 5/2⌋` for nonnegative attack) and `attack * 2`
otherwise; a Mage with attack 18 against defense 3 deals 42; on a miss the
target is returned unchanged. -/
theorem strong_attack_resolution (h : Hero) (t : Character) (r : ℚ) :
    (r < 7 / 10 →
      h.strong_attack t r =
        (t.take_damage (max 1 ((if h.cls = HeroClass.mage then Int.tdiv (h.attack * 5) 2
            else h.attack * 2) - t.defense)),
         hit_text (max 1 ((if h.cls = HeroClass.mage then Int.tdiv (h.attack * 5) 2
            else h.attack * 2) - t.defense)))) ∧
    (0 ≤ h.attack → Int.tdiv (h.attack * 5) 2 = ⌊(h.attack : ℚ) * (5 / 2)⌋) ∧
    (7 / 10 ≤ r → h.strong_attack t r = (t, miss_text)) ∧
    (r < 7 / 10 → h.cls = HeroClass.mage → h.attack = 18 → t.defense = 3 →
      (h.strong_attack t r).1.hp = max 0 (t.hp - 42)) := by
  refine ⟨fun hr => ?_, fun ha => tdiv_two_as_floor h.attack ha, fun hr => ?_, ?_⟩
  · simp [Hero.strong_attack, hr]
  · simp [Hero.strong_attack, not_lt.mpr hr]
  · intro hr hm ha hd
    have h45 : Int.tdiv (90 : Int) 2 = 45 := by decide
    simp [Hero.strong_attack, Character.take_damage, hr, hm, ha, hd, h45]

/-- Witness for `strong_attack_resolution` at the source's `Mage` against
defense 3: a forced hit deals 42, a forced miss leaves the target alone. -/
theorem strong_attack_resolution_witness :
    (mageHero.strong_attack orc (1 / 2)).1.hp = max 0 (orc.hp - 42) ∧
    mageHero.strong_attack orc (9 / 10) = (orc, miss_text) ∧
    Int.tdiv (mageHero.attack * 5) 2 = ⌊(mageHero.attack : ℚ) * (5 / 2)⌋ :=
  ⟨(strong_attack_resolution mageHero orc (1 / 2)).2.2.2 (by norm_num) (by decide)
      (by decide) (by decide),
   (strong_attack_resolution mageHero orc (9 / 10)).2.2.1 (by norm_num),
   (strong_attack_resolution mageHero orc 0).2.1 (by decide)⟩

/-- C6: a non-critical hero normal attack and every enemy attack deal
exactly `max(1, attack - defense)` with no miss branch: the hp drop is that
amount (clamped at 0), is exactly 1 when defense is at least attack, and a
living target always loses hp. -/
theorem plain_attack_damage (h : Hero) (e : Enemy) (t : Character) (r : ℚ) :
    (¬(h.cls = HeroClass.rogue ∧ r < 3 / 10) →
      (h.normal_attack t r).1.hp = max 0 (t.hp - max 1 (h.attack - t.defense)) ∧
      (h.attack ≤ t.defense → (h.normal_attack t r).1.hp = max 0 (t.hp - 1)) ∧
      (t.is_alive = true → (h.normal_attack t r).1.hp < t.hp)) ∧
    ((e.attack_action t).1.hp = max 0 (t.hp - max 1 (e.attack - t.defense))) ∧
    (e.attack ≤ t.defense → (e.attack_action t).1.hp = max 0 (t.hp - 1)) ∧
    (t.is_alive = true → (e.attack_action t).1.hp < t.hp) := by
  refine ⟨fun hc => ⟨?_, fun hd => ?_, fun ht => ?_⟩, ?_, fun hd => ?_, fun ht => ?_⟩
  · simp [Hero.normal_attack, hc, Character.take_damage]
  · have h1 : max 1 (h.attack - t.defense) = 1 := max_eq_left (by linarith)
    simp [Hero.normal_attack, hc, Character.take_damage, h1]
  · have halive : 0 < t.hp := by simpa [Character.is_alive] using ht
    have hdmg : 1 ≤ max 1 (h.attack - t.defense) := le_max_left 1 _
    simp [Hero.normal_attack, hc, Character.take_damage]
    omega
  · simp [Enemy.attack_action, Character.take_damage]
  · have h1 : max 1 (e.attack - t.defense) = 1 := max_eq_left (by linarith)
    simp [Enemy.attack_action, Character.take_damage, h1]
  · have halive : 0 < t.hp := by simpa [Character.is_alive] using ht
    have hdmg : 1 ≤ max 1 (e.attack - t.defense) := le_max_left 1 _
    simp only [Enemy.attack_action, Character.take_damage]
    omega

/-- Witness for `plain_attack_damage`: the Warrior (not a Rogue) against
the armored dead enemy stub and the goblin against the Warrior. -/
theorem plain_attack_damage_witness :
    (warriorHero.normal_attack goblin (1 / 2)).1.hp = max 0 (goblin.hp - max 1 (warriorHero.attack - goblin.defense)) ∧
    (goblin.attack_action warriorHero.toCharacter).1.hp =
      max 0 (warriorHero.hp - max 1 (goblin.attack - warriorHero.defense)) ∧
    (goblin.attack_action warriorHero.toCharacter).1.hp < warriorHero.hp :=
  ⟨((plain_attack_damage warriorHero goblin goblin (1 / 2)).1 (by decide)).1,
   (plain_attack_damage warriorHero goblin warriorHero.toCharacter (1 / 2)).2.1,
   (plain_attack_damage warriorHero goblin warriorHero.toCharacter (1 / 2)).2.2.2 (by decide)⟩

/-- C7: a hero normal attack is a critical strike exactly when the actor is
a Rogue and the draw is below `3/10`; the doubling is applied after the
`max(1, attack - defense)` floor and flagged in the narrative text; a Rogue
with attack 20 against defense 4 deals 32 on a forced critical. -/
theorem rogue_critical_resolution (h : Hero) (t : Character) (r : ℚ) :
    (h.cls = HeroClass.rogue → r < 3 / 10 →
      h.normal_attack t r =
        (t.take_damage (max 1 (h.attack - t.defense) * 2),
         crit_text (max 1 (h.attack - t.defense) * 2))) ∧
    (¬(h.cls = HeroClass.rogue ∧ r < 3 / 10) →
      h.normal_attack t r =
        (t.take_damage (max 1 (h.attack - t.defense)),
         hit_text (max 1 (h.attack - t.defense)))) ∧
    (h.cls = HeroClass.rogue → r < 3 / 10 → h.attack = 20 → t.defense = 4 →
      (h.normal_attack t r).1.hp = max 0 (t.hp - 32)) := by
  refine ⟨fun hc hr => ?_, fun hc => ?_, fun hc hr ha hd => ?_⟩
  · simp [Hero.normal_attack, hc, hr]
  · simp [Hero.normal_attack, hc]
  · simp [Hero.normal_attack, Character.take_damage, hc, hr, ha, hd]

/-- Witness for `rogue_critical_resolution` at the source's `Rogue` against
defense 4: a forced critical deals 32, a high draw does not crit. -/
theorem rogue_critical_resolution_witness :
    (rogueHero.normal_attack (⟨99, 99, 10, 4⟩ : Character) (1 / 10)).1.hp =
      max 0 ((⟨99, 99, 10, 4⟩ : Character).hp - 32) ∧
    rogueHero.normal_attack goblin (1 / 2) =
      (goblin.take_damage (max 1 (rogueHero.attack - goblin.defense)),
       hit_text (max 1 (rogueHero.attack - goblin.defense))) := by
  refine ⟨?_, ?_⟩
  · exact (rogue_critical_resolution rogueHero ⟨99, 99, 10, 4⟩ (1 / 10)).2.2 (by decide)
      (by norm_num) (by decide) (by decide)
  · exact (rogue_critical_resolution rogueHero goblin (1 / 2)).2.1
      (by norm_num [rogueHero])

/-- C8: a hero action in a wave whose first living enemy is `t` behaves
exactly like the same action on the singleton wave `[t]`: the dead prefix
and every enemy after `t` are returned untouched, and hero and log are
those of acting on `t` alone. -/
theorem hero_action_first_living (h : Hero) (a : HeroAction) (r : ℚ)
    (pre : List Enemy) (t : Enemy) (post : List Enemy)
    (hpre : ∀ e ∈ pre, e.is_alive = false) (ht : t.is_alive = true) :
    heroTurn h a r (pre ++ t :: post) =
      ((heroTurn h a r [t]).1,
       pre ++ (heroTurn h a r [t]).2.1 ++ post,
       (heroTurn h a r [t]).2.2) := by
  induction pre with
  | nil =>
    simp only [List.nil_append]
    cases a <;> simp [heroTurn, ht]
  | cons e pre ih =>
    have he : e.is_alive = false := hpre e (by simp)
    have ih' := ih (fun x hx => hpre x (by simp [hx]))
    simp only [List.cons_append]
    simp [heroTurn, he, ih']

/-- Witness for `hero_action_first_living`: a dead enemy in front, the
goblin as first living target, the orc untouched behind. -/
theorem hero_action_first_living_witness :
    heroTurn plainHero HeroAction.attack 0 ([deadEnemy] ++ goblin :: [orc]) =
      ((heroTurn plainHero HeroAction.attack 0 [goblin]).1,
       [deadEnemy] ++ (heroTurn plainHero HeroAction.attack 0 [goblin]).2.1 ++ [orc],
       (heroTurn plainHero HeroAction.attack 0 [goblin]).2.2) :=
  hero_action_first_living plainHero HeroAction.attack 0 [deadEnemy] goblin [orc]
    (by decide) (by decide)

/-- C3: the retaliation pass splits the wave as `pre ++ post`; exactly the
living enemies of `pre` attack, once each, in sequence order, producing
matching log entries; if any enemy was left unprocessed (`post ≠ []`) the
hero is dead at that point; and before each processed attack the hero was
still alive. -/
theorem enemy_pass_sequence (h : Hero) (es : List Enemy) (hAlive : h.is_alive = true) :
    ∃ pre post : List Enemy, es = pre ++ post ∧
      enemyTurns h es =
        (strikeFold h (pre.filter Character.is_alive),
         (pre.filter Character.is_alive).map
           (fun e => hit_text (max 1 (e.attack - h.defense)))) ∧
      (post ≠ [] → (strikeFold h (pre.filter Character.is_alive)).is_alive = false) ∧
      (∀ l₁ x l₂, pre.filter Character.is_alive = l₁ ++ x :: l₂ →
        (strikeFold h l₁).is_alive = true) := by
  induction es generalizing h with
  | nil =>
    refine ⟨[], [], rfl, by simp [enemyTurns, strikeFold], by simp, ?_⟩
    intro l₁ x l₂ hsplit
    simp at hsplit
  | cons e es ih =>
    by_cases he : e.is_alive = true
    · by_cases hd : (enemyStrike e h).is_alive = true
      · obtain ⟨pre, post, hsplit, heq, hpost, hpref⟩ := ih (enemyStrike e h) hd
        refine ⟨e :: pre, post, by simp [hsplit], ?_, ?_, ?_⟩
        · have hstep : enemyTurns h (e :: es) =
              ((enemyTurns (enemyStrike e h) es).1,
               (e.attack_action h.toCharacter).2 :: (enemyTurns (enemyStrike e h) es).2) := by
            simp [enemyTurns, he, hd]
          rw [hstep, heq]
          have hdef : (enemyStrike e h).defense = h.defense := rfl
          simp [List.filter_cons, he, strikeFold, Enemy.attack_action, hdef]
        · intro hne
          have hx := hpost hne
          simpa [List.filter_cons, he, strikeFold] using hx
        · intro l₁ x l₂ hsp
          rw [List.filter_cons_of_pos he] at hsp
          cases l₁ with
          | nil =>
            simpa [strikeFold] using hAlive
          | cons y l₁ =>
            obtain ⟨h1, h2⟩ := List.cons.inj hsp
            subst h1
            have := hpref l₁ x l₂ h2
            simpa [strikeFold] using this
      · refine ⟨[e], es, rfl, ?_, ?_, ?_⟩
        · have hdead : (enemyStrike e h).is_alive = false := by
            simpa using hd
          simp [enemyTurns, he, hdead, List.filter_cons, strikeFold, Enemy.attack_action]
        · intro _
          have hdead : (enemyStrike e h).is_alive = false := by simpa using hd
          simpa [List.filter_cons, he, strikeFold] using hdead
        · intro l₁ x l₂ hsp
          rw [List.filter_cons_of_pos he] at hsp
          simp at hsp
          cases l₁ with
          | nil => simpa [strikeFold] using hAlive
          | cons y l₁ => simp at hsp
    · obtain ⟨pre, post, hsplit, heq, hpost, hpref⟩ := ih h hAlive
      have he' : e.is_alive = false := by simpa using he
      refine ⟨e :: pre, post, by simp [hsplit], ?_, ?_, ?_⟩
      · have hstep : enemyTurns h (e :: es) = enemyTurns h es := by
          simp [enemyTurns, he']
        rw [hstep, heq]
        simp [List.filter_cons, he']
      · intro hne
        simpa [List.filter_cons, he'] using hpost hne
      · intro l₁ x l₂ hsp
        rw [List.filter_cons_of_neg (by simp [he'])] at hsp
        exact hpref l₁ x l₂ hsp

/-- Witness for `enemy_pass_sequence`: a three-enemy wave whose first
member alone kills the hero, so later enemies must not act. -/
theorem enemy_pass_sequence_witness :
    ∃ pre post : List Enemy, [brute, goblin, orc] = pre ++ post ∧
      enemyTurns plainHero [brute, goblin, orc] =
        (strikeFold plainHero (pre.filter Character.is_alive),
         (pre.filter Character.is_alive).map
           (fun e => hit_text (max 1 (e.attack - plainHero.defense)))) ∧
      (post ≠ [] → (strikeFold plainHero (pre.filter Character.is_alive)).is_alive = false) ∧
      (∀ l₁ x l₂, pre.filter Character.is_alive = l₁ ++ x :: l₂ →
        (strikeFold plainHero l₁).is_alive = true) :=
  enemy_pass_sequence plainHero [brute, goblin, orc] (by decide)

/-- When the loop condition `hero.is_alive() and any(e.is_alive() ...)`
does not hold, `run_battle` returns at once with everything unchanged and
the hero's aliveness as result, regardless of the queued inputs. -/
theorem run_battle_stopped (h : Hero) (es : List Enemy) (log : List String)
    (script : List BattleInput)
    (hc : (h.is_alive && es.any Character.is_alive) = false) :
    run_battle h es log script = (h, es, log, some h.is_alive) := by
  cases script with
  | nil => simp [run_battle, hc]
  | cons i rest => cases i <;> simp [run_battle, hc]

/-- C4 (amended): once the loop condition fails — hero dead or no living
enemy — `run_battle` returns at once: state and log unchanged, result
`hero.is_alive()`, no summary entry appended.  And whenever `run_battle`
returns `some b` in a terminal-by-death state, `b` is exactly the hero's
aliveness (a `quit` abort never coincides with a terminal state, since the
loop condition held when it was processed). -/
theorem run_battle_terminal (h : Hero) (es : List Enemy) (log : List String)
    (script : List BattleInput) :
    ((h.is_alive && es.any Character.is_alive) = false →
      run_battle h es log script = (h, es, log, some h.is_alive)) ∧
    (∀ h' es' log' b, run_battle h es log script = (h', es', log', some b) →
      (h'.is_alive = false ∨ es'.any Character.is_alive = false) → b = h'.is_alive) := by
  induction script generalizing h es log with
  | nil =>
    constructor
    · intro hc
      simp [run_battle, hc]
    · intro h' es' log' b heq hdead
      by_cases hc : (h.is_alive && es.any Character.is_alive) = true
      · simp [run_battle, hc] at heq
      · have hc' : (h.is_alive && es.any Character.is_alive) = false := by
          simpa using hc
        simp [run_battle, hc'] at heq
        obtain ⟨rfl, rfl, rfl, rfl⟩ := heq
        rfl
  | cons i rest ih =>
    constructor
    · intro hc
      cases i <;> simp [run_battle, hc]
    · intro h' es' log' b heq hdead
      by_cases hc : (h.is_alive && es.any Character.is_alive) = true
      · cases i with
        | quit =>
          simp [run_battle, hc] at heq
          obtain ⟨rfl, rfl, rfl, rfl⟩ := heq
          simp only [Bool.and_eq_true] at hc
          rcases hdead with hdead | hdead
          · rw [hc.1] at hdead
            cases hdead
          · rw [hc.2] at hdead
            cases hdead
        | skip =>
          rw [show run_battle h es log (BattleInput.skip :: rest) = run_battle h es log rest by
            simp [run_battle, hc]] at heq
          exact (ih h es log).2 h' es' log' b heq hdead
        | click a r =>
          rw [show run_battle h es log (BattleInput.click a r :: rest) =
              run_battle (enemyTurns (heroTurn h a r es).1 (heroTurn h a r es).2.1).1
                (heroTurn h a r es).2.1
                (log ++ (heroTurn h a r es).2.2 ++
                  (enemyTurns (heroTurn h a r es).1 (heroTurn h a r es).2.1).2) rest by
            simp [run_battle, hc]] at heq
          exact (ih _ _ _).2 h' es' log' b heq hdead
      · have hc' : (h.is_alive && es.any Character.is_alive) = false := by simpa using hc
        cases i <;> simp [run_battle, hc'] at heq <;>
          · obtain ⟨rfl, rfl, rfl, rfl⟩ := heq
            rfl

/-- Witness for `run_battle_terminal`: immediate return on a dead-hero
state, and a completed victorious battle whose returned flag equals the
hero's aliveness. -/
theorem run_battle_terminal_witness :
    run_battle ⟨⟨100, 0, 20, 5⟩, HeroClass.warrior, 20⟩ [goblin] [] [] =
      (⟨⟨100, 0, 20, 5⟩, HeroClass.warrior, 20⟩, [goblin], [],
        some (Hero.toCharacter ⟨⟨100, 0, 20, 5⟩, HeroClass.warrior, 20⟩).is_alive) ∧
    true = (Hero.toCharacter plainHero).is_alive :=
  ⟨(run_battle_terminal ⟨⟨100, 0, 20, 5⟩, HeroClass.warrior, 20⟩ [goblin] [] []).1 (by decide),
   (run_battle_terminal plainHero [weakGoblin] [] [BattleInput.click HeroAction.attack 0]).2
     plainHero [⟨10, 0, 10, 2⟩] ["-18", "повержен"] true (by decide) (by decide)⟩

/-- C4 counterexample: a complete victorious encounter.  The full outcome
log of the battle is exactly the per-effect entries `"-18"` and
`"повержен"`; no final summary entry ("Victory"/"Defeat" or anything else)
is appended when the encounter terminates — the function only returns the
boolean. -/
theorem run_battle_appends_no_summary :
    run_battle plainHero [weakGoblin] [] [BattleInput.click HeroAction.attack 0] =
      (plainHero, [⟨10, 0, 10, 2⟩], ["-18", "повержен"], some true) ∧
    "Victory" ∉ ["-18", "повержен"] ∧ "Defeat" ∉ ["-18", "повержен"] ∧
    "Победа" ∉ ["-18", "повержен"] ∧ "Поражение" ∉ ["-18", "повержен"] := by
  refine ⟨by decide, by decide, by decide, by decide, by decide⟩

/-- C10: calling the battle loop with a living hero and a wave with no
living enemy (an empty list included) returns immediately with `true`: no
log entry, no mutation of hero or enemies, whatever inputs were queued. -/
theorem run_battle_no_living_enemies (h : Hero) (es : List Enemy) (script : List BattleInput)
    (hAlive : h.is_alive = true) (hdead : ∀ e ∈ es, e.is_alive = false) :
    run_battle h es [] script = (h, es, [], some true) := by
  have hany : es.any Character.is_alive = false := by
    rw [List.any_eq_false]
    intro e he
    simp [hdead e he]
  have hc : (h.is_alive && es.any Character.is_alive) = false := by
    simp [hany]
  rw [run_battle_stopped h es [] script hc, hAlive]

/-- Witness for `run_battle_no_living_enemies` on an empty wave and on an
all-dead wave. -/
theorem run_battle_no_living_enemies_witness :
    run_battle plainHero [] [] [BattleInput.click HeroAction.attack 0] =
      (plainHero, [], [], some true) ∧
    run_battle plainHero [deadEnemy] [] [] = (plainHero, [deadEnemy], [], some true) :=
  ⟨run_battle_no_living_enemies plainHero [] [BattleInput.click HeroAction.attack 0]
      (by decide) (by simp),
   run_battle_no_living_enemies plainHero [deadEnemy] [] (by decide)
      (by intro e he; fin_cases he; decide)⟩
